import Mathlib

/-!
Verification development for the content-skimmer processing core.

Each namespace below is a shallow embedding of one source module:

* `CircuitBreaker`  -- src/utils/CircuitBreaker.ts
* `AIOrchestrator`  -- src/ai/AIOrchestrator.ts
* `Skimmer`         -- src/core/ContentSkimmer.ts (processFile)
* `RetryQueue`      -- src/events/RetryQueue.ts
* `EventBus`        -- src/events/EventBus.ts
* `OpenAIProvider`  -- src/ai/OpenAIProvider.ts (analyzeContent)
* `SearchLayer`     -- src/core/ContentSkimmer.ts (searchContent, engine "all")

Asynchronous methods are modelled as pure state-transition functions: every
awaited external call is replaced by its outcome (an `Except` value carried in
an environment record), wall-clock reads by an explicit `now : Nat` parameter,
and observable side effects by an explicit action trace.  Execution is
sequential, matching the single-threaded isolate model of the deployment
platform.
-/

deriving instance DecidableEq for Except

namespace CircuitBreaker

/-- Breaker status; source values CLOSED / OPEN / HALF_OPEN. -/
inductive CBStatus where
  | closed
  | opened
  | halfOpen
deriving DecidableEq, Repr

/-- Source `CircuitBreakerConfig`. -/
structure CircuitBreakerConfig where
  failureThreshold : Nat
  recoveryTimeout : Nat
  monitoringWindow : Nat
deriving DecidableEq, Repr

/-- Source `CircuitBreakerState`.  The TS field `state` is called `status`
here because `state` is also the record's own name in the source class. -/
structure CircuitBreakerState where
  failures : Nat
  lastFailureTime : Nat
  status : CBStatus
  nextAttemptTime : Nat
deriving DecidableEq, Repr

/-- The constructor's initial state (failures 0, CLOSED, timers 0). -/
def initialState : CircuitBreakerState :=
  { failures := 0, lastFailureTime := 0, status := CBStatus.closed, nextAttemptTime := 0 }

/-- Default config from the constructor (threshold 5, recovery 60000ms). -/
def defaultConfig : CircuitBreakerConfig :=
  { failureThreshold := 5, recoveryTimeout := 60000, monitoringWindow := 300000 }

/-- Source `shouldReject`.  Returns the decision and the (possibly mutated)
state: in OPEN past `nextAttemptTime` the breaker moves to HALF_OPEN. -/
def shouldReject (s : CircuitBreakerState) (now : Nat) : Bool × CircuitBreakerState :=
  match s.status with
  | CBStatus.closed => (false, s)
  | CBStatus.opened =>
      if s.nextAttemptTime ≤ now then (false, { s with status := CBStatus.halfOpen })
      else (true, s)
  | CBStatus.halfOpen => (false, s)

/-- Source `onSuccess`. -/
def onSuccess (s : CircuitBreakerState) : CircuitBreakerState :=
  { s with failures := 0, status := CBStatus.closed, nextAttemptTime := 0 }

/-- Source `onFailure`. -/
def onFailure (cfg : CircuitBreakerConfig) (s : CircuitBreakerState) (now : Nat) :
    CircuitBreakerState :=
  let s1 := { s with failures := s.failures + 1, lastFailureTime := now }
  if cfg.failureThreshold ≤ s1.failures then
    { s1 with status := CBStatus.opened, nextAttemptTime := now + cfg.recoveryTimeout }
  else s1

/-- Errors surfaced by `execute`: either the breaker rejected with no
fallback, or the wrapped operation's own error was propagated. -/
inductive CBError (ε : Type) where
  | circuitOpenErr
  | opErr (e : ε)
deriving DecidableEq, Repr

/-- Observable outcome of one `execute` call: the returned/thrown value,
whether the underlying operation was invoked, and whether the fallback was
used. -/
structure ExecResult (ε α : Type) where
  result : Except (CBError ε) α
  invoked : Bool
  usedFallback : Bool
deriving DecidableEq, Repr

/-- Source `execute`.  The wrapped async operation is modelled by the outcome
`opResult` it would produce if invoked; the optional fallback by the value it
would return.  Mirrors the source exactly: a rejected call uses the fallback
or throws `CircuitOpen`; an admitted failing call runs `onFailure` and then
returns the fallback only when the post-failure state is OPEN, otherwise the
operation's error is re-thrown. -/
def execute (cfg : CircuitBreakerConfig) (s : CircuitBreakerState) (now : Nat)
    (opResult : Except ε α) (fallback : Option α) :
    ExecResult ε α × CircuitBreakerState :=
  let p := shouldReject s now
  if p.1 then
    match fallback with
    | some v =>
        ({ result := Except.ok v, invoked := false, usedFallback := true }, p.2)
    | none =>
        ({ result := Except.error CBError.circuitOpenErr, invoked := false,
           usedFallback := false }, p.2)
  else
    match opResult with
    | Except.ok v =>
        ({ result := Except.ok v, invoked := true, usedFallback := false }, onSuccess p.2)
    | Except.error e =>
        let s2 := onFailure cfg p.2 now
        match fallback with
        | some v =>
            if s2.status = CBStatus.opened then
              ({ result := Except.ok v, invoked := true, usedFallback := true }, s2)
            else
              ({ result := Except.error (CBError.opErr e), invoked := true,
                 usedFallback := false }, s2)
        | none =>
            ({ result := Except.error (CBError.opErr e), invoked := true,
               usedFallback := false }, s2)

/-- State evolution of a sequence of failing `execute` calls (no fallback;
the state transition does not depend on the fallback or on the value types). -/
def runFailures (cfg : CircuitBreakerConfig) (s : CircuitBreakerState)
    (times : List Nat) : CircuitBreakerState :=
  times.foldl (fun st t => (execute cfg st t (Except.error () : Except Unit Unit) none).2) s

/-- States reachable from the constructor state by any sequence of calls. -/
inductive Reachable (cfg : CircuitBreakerConfig) : CircuitBreakerState → Prop where
  | init : Reachable cfg initialState
  | step (s : CircuitBreakerState) (now : Nat) (opRes : Except Unit Unit)
      (fb : Option Unit) : Reachable cfg s → Reachable cfg (execute cfg s now opRes fb).2

end CircuitBreaker

namespace AIOrchestrator

/-- Source `AIProvider` capability interface (src/ai/AIProvider.ts), with each
fallible async method modelled by the `Except` outcome it produces on the
given input.  `ρ` is the provider's analysis-result type.  The orchestrator
passes a priority argument to its concrete provider; the priority only tunes
cost strategy inside `analyzeContent`, so the modelled `analyzeContent` is the
source method with the priority already applied. -/
structure AIProvider (ρ : Type) where
  isSupported : String → Bool
  extractText : List Nat → String → Except String String
  analyzeContent : String → String → Except String ρ

/-- The error thrown at the bottom of `analyzeFile`: "All AI providers
failed. Last error: ..." carrying the recorded `lastError` (none when no
provider ever threw). -/
inductive OrchestratorError where
  | allProvidersFailed (lastError : Option String)
deriving DecidableEq, Repr

/-- One provider's attempt inside the loop body: `none` when `isSupported`
is false (the provider is skipped), otherwise `extractText` chained into
`analyzeContent`. -/
def attemptOf (p : AIProvider ρ) (buffer : List Nat) (mimeType : String) :
    Option (Except String ρ) :=
  if p.isSupported mimeType then
    some (match p.extractText buffer mimeType with
          | Except.error e => Except.error e
          | Except.ok text => p.analyzeContent text mimeType)
  else none

/-- The provider loop of source `analyzeFile`, carrying `lastError`. -/
def analyzeFileGo (buffer : List Nat) (mimeType : String) :
    List (AIProvider ρ) → Option String → Except OrchestratorError ρ
  | [], lastError => Except.error (OrchestratorError.allProvidersFailed lastError)
  | p :: rest, lastError =>
      if p.isSupported mimeType then
        match p.extractText buffer mimeType with
        | Except.error e => analyzeFileGo buffer mimeType rest (some e)
        | Except.ok text =>
            match p.analyzeContent text mimeType with
            | Except.error e => analyzeFileGo buffer mimeType rest (some e)
            | Except.ok r => Except.ok r
      else analyzeFileGo buffer mimeType rest lastError

/-- Source `AIOrchestrator.analyzeFile` over the configured provider list. -/
def analyzeFile (providers : List (AIProvider ρ)) (buffer : List Nat)
    (mimeType : String) : Except OrchestratorError ρ :=
  analyzeFileGo buffer mimeType providers none

/-- Source `hasCompatibleProvider`. -/
def hasCompatibleProvider (providers : List (AIProvider ρ)) (mimeType : String) : Bool :=
  providers.any (fun p => p.isSupported mimeType)

/-- A provider contributes no result: it is either incompatible or raises
during extraction/analysis. -/
def providerFails (p : AIProvider ρ) (buffer : List Nat) (mimeType : String) : Prop :=
  attemptOf p buffer mimeType = none ∨
    ∃ e, attemptOf p buffer mimeType = some (Except.error e)

/-- The `lastError` value accumulated over a (fully failing) provider list. -/
def lastErrorOf (buffer : List Nat) (mimeType : String) :
    List (AIProvider ρ) → Option String → Option String
  | [], acc => acc
  | p :: rest, acc =>
      match attemptOf p buffer mimeType with
      | some (Except.error e) => lastErrorOf buffer mimeType rest (some e)
      | _ => lastErrorOf buffer mimeType rest acc

end AIOrchestrator

namespace Skimmer

/-- Observable side effects of one `processFile` invocation, in program
order.  Only the effects the claims speak about are traced. -/
inductive Action where
  | statusUpdateTried
  | unsupportedCallbackTried
  | signedUrlRequested
  | downloadRequested
  | aiAnalysisTried
  | successCallbackTried
  | legacySaveTried
  | emitCompleted
  | failureCallbackTried
  | failureWebhookErrorLogged (msg : String)
  | emitFailed
deriving DecidableEq, Repr

/-- Environment of one `processFile` run: the outcome every external call
would produce at its (unique) call site.  `signedUrlProvided` models whether
`event.signedUrl` is present. -/
structure PipelineEnv where
  updateStatusAnalyzing : Except String Unit
  hasCompatibleProvider : Bool
  mimeType : String
  signedUrlProvided : Bool
  resolveSignedUrl : Except String String
  downloadFile : Except String (List Nat)
  analyzeFile : List Nat → Except String String
  sendUnsupportedCallback : Except String Unit
  sendSuccessCallback : Except String Unit
  legacySave : Except String Unit
  sendFailureCallback : Except String Unit

/-- The error message built in the unsupported-type branch. -/
def unsupportedMessage (mimeType : String) : String :=
  "Unsupported file type: " ++ mimeType

/-- Source `getFileContent`: resolve a signed URL when the event carries
none, then download. -/
def getFileContentR (env : PipelineEnv) : Except String (List Nat) × List Action :=
  if env.signedUrlProvided then
    (env.downloadFile, [Action.downloadRequested])
  else
    match env.resolveSignedUrl with
    | Except.error e => (Except.error e, [Action.signedUrlRequested])
    | Except.ok _url => (env.downloadFile, [Action.signedUrlRequested, Action.downloadRequested])

/-- The body of `processFile`'s outer `try` block: first error (if any) and
the actions performed before leaving the block.  The initial status update is
wrapped in its own `try` in the source, so its failure only logs a warning;
likewise the legacy save after the success callback. -/
def tryBody (env : PipelineEnv) : Option String × List Action :=
  let acts0 := [Action.statusUpdateTried]
  if env.hasCompatibleProvider = false then
    match env.sendUnsupportedCallback with
    | Except.error ce => (some ce, acts0 ++ [Action.unsupportedCallbackTried])
    | Except.ok _ =>
        (some (unsupportedMessage env.mimeType), acts0 ++ [Action.unsupportedCallbackTried])
  else
    match getFileContentR env with
    | (Except.error e, acts1) => (some e, acts0 ++ acts1)
    | (Except.ok buffer, acts1) =>
        match env.analyzeFile buffer with
        | Except.error e => (some e, acts0 ++ acts1 ++ [Action.aiAnalysisTried])
        | Except.ok _res =>
            match env.sendSuccessCallback with
            | Except.error e =>
                (some e, acts0 ++ acts1 ++ [Action.aiAnalysisTried, Action.successCallbackTried])
            | Except.ok _ =>
                (none, acts0 ++ acts1 ++
                  [Action.aiAnalysisTried, Action.successCallbackTried,
                   Action.legacySaveTried, Action.emitCompleted])

/-- Source `processFile`: the outer `try`/`catch`.  On any error from the
`try` body the catch block attempts the failure callback (its own failure is
logged, not re-thrown), emits `analysis_failed` (the event bus never
rejects), and re-throws the original error. -/
def processFile (env : PipelineEnv) : Except String Unit × List Action :=
  match tryBody env with
  | (none, acts) => (Except.ok (), acts)
  | (some e, acts) =>
      let webhookActs :=
        match env.sendFailureCallback with
        | Except.ok _ => [Action.failureCallbackTried]
        | Except.error we => [Action.failureCallbackTried, Action.failureWebhookErrorLogged we]
      (Except.error e, acts ++ webhookActs ++ [Action.emitFailed])

end Skimmer

namespace RetryQueue

/-- Source `RetryableOperation` (the closure itself is replaced by the
outcome function supplied to each processing pass). -/
structure RetryableOperation where
  id : String
  maxRetries : Nat
  currentRetry : Nat
  nextRetryAt : Nat
deriving DecidableEq, Repr

/-- `Map.set` semantics on the operations map: replace in place when the id
exists, append otherwise (JS `Map` keeps the original insertion position). -/
def setOp : List RetryableOperation → RetryableOperation → List RetryableOperation
  | [], op => [op]
  | o :: os, op => if o.id = op.id then op :: os else o :: setOp os op

/-- Source `addOperation`: registers a fresh entry (`currentRetry` 0,
`nextRetryAt` now).  The immediate `processQueue()` kick is modelled by the
explicit passes below. -/
def addOperation (q : List RetryableOperation) (id' : String) (maxRetries : Nat)
    (now : Nat) : List RetryableOperation :=
  setOp q { id := id', maxRetries := maxRetries, currentRetry := 0, nextRetryAt := now }

/-- The loop body of `processQueue` for one ready operation, given whether
its closure succeeded: success removes it; failure increments `currentRetry`,
drops the operation once `currentRetry >= maxRetries`, and otherwise
reschedules it at `now + 2 ^ currentRetry * 1000`. -/
def processOne (now : Nat) (succeeded : Bool) (op : RetryableOperation) :
    Option RetryableOperation :=
  if succeeded then none
  else
    let cr := op.currentRetry + 1
    if op.maxRetries ≤ cr then none
    else some { op with currentRetry := cr, nextRetryAt := now + 2 ^ cr * 1000 }

/-- One `processQueue` pass at time `now`: every operation with
`nextRetryAt <= now` is run (its outcome given by `succeeds` on its id) and
removed/updated; the rest are untouched.  `now` is read once before the loop
in the source, so every backoff in one pass uses the same base time. -/
def processQueue (q : List RetryableOperation) (now : Nat) (succeeds : String → Bool) :
    List RetryableOperation :=
  q.filterMap (fun op =>
    if op.nextRetryAt ≤ now then processOne now (succeeds op.id) op else some op)

/-- A time at which every queued operation is ready. -/
def maxTime (q : List RetryableOperation) : Nat :=
  q.foldr (fun op acc => max op.nextRetryAt acc) 0

/-- The queue holding one freshly added operation after `k` all-failing
passes, each pass run at a time when the operation is ready. -/
def singleQueueAfterFails (idv : String) (maxRetries : Nat) (t0 : Nat) :
    Nat → List RetryableOperation
  | 0 => addOperation [] idv maxRetries t0
  | k + 1 =>
      let q := singleQueueAfterFails idv maxRetries t0 k
      processQueue q (maxTime q) (fun _ => false)

end RetryQueue

namespace EventBus

/-- Source `Event` envelope. -/
structure EventEnvelope (π : Type) where
  type : String
  payload : π
  timestamp : Nat
  id : String
deriving DecidableEq, Repr

/-- A handler, modelled by the outcome its promise settles with. -/
def Handler (π ε : Type) : Type := EventEnvelope π → Except ε Unit

/-- The handlers map, in insertion order. -/
def HandlerMap (π ε : Type) : Type := List (String × List (Handler π ε))

/-- Lookup of `handlers.get(eventType) || []`. -/
def handlersFor (hs : HandlerMap π ε) (eventType : String) : List (Handler π ε) :=
  match hs.find? (fun p => p.1 = eventType) with
  | some p => p.2
  | none => []

/-- Source `on`: append the handler to the type's list (the list is created on first use). -/
def onRegister : HandlerMap π ε → String → Handler π ε → HandlerMap π ε
  | [], t, h => [(t, [h])]
  | (t', l) :: rest, t, h =>
      if t' = t then (t', l ++ [h]) :: rest else (t', l) :: onRegister rest t h

/-- The per-promise outcome recorded by `Promise.allSettled`. -/
inductive Settled (ε : Type) where
  | fulfilled
  | rejected (e : ε)
deriving DecidableEq, Repr

/-- How `allSettled` records one handler's outcome. -/
def settleOf (ev : EventEnvelope π) (h : Handler π ε) : Settled ε :=
  match h ev with
  | Except.ok _ => Settled.fulfilled
  | Except.error e => Settled.rejected e

/-- Source `emit`: build the envelope, invoke every registered handler, and
join with `Promise.allSettled` — the settled outcomes are collected (and then
discarded by the source; we keep them as the observation of which handlers
ran) and `emit` itself always fulfills. -/
def emit (hs : HandlerMap π ε) (eventType : String) (payload : π) (now : Nat)
    (uuid : String) : Except ε (List (Settled ε)) :=
  let ev : EventEnvelope π :=
    { type := eventType, payload := payload, timestamp := now, id := uuid }
  Except.ok ((handlersFor hs eventType).map (fun h => settleOf ev h))

end EventBus

namespace OpenAIProvider

/-- Entity breakdown of the rule-based enrichment pass. -/
structure EntityBreakdown where
  people : List String
  organizations : List String
  locations : List String
deriving DecidableEq, Repr

/-- Topic analysis of the rule-based enrichment pass. -/
structure TopicAnalysis where
  primaryTopics : List String
  secondaryTopics : List String
  keywords : List String
  categories : List String
deriving DecidableEq, Repr

/-- Result of `performFullEnrichment` (the mandatory zero-cost pass), with
the fields `analyzeContent` reads. -/
structure Enrichment where
  entities : EntityBreakdown
  topics : TopicAnalysis
  language : String
  sentiment : String
deriving DecidableEq, Repr

/-- Cost-policy decision returned by `costOptimizer.shouldUseAI`.  The
estimated dollar cost is irrelevant to the claims and elided. -/
structure CostDecision where
  useAI : Bool
  strategy : String
  reasoning : String
deriving DecidableEq, Repr

/-- The analysis result assembled by `analyzeContent`, restricted to the
fields the claims observe.  `usedRemote`/`strategy` come from the decision,
`fallbackReason` is set only on the catch path. -/
structure AIAnalysisResult where
  summary : String
  entities : List String
  topics : List String
  language : String
  sentiment : String
  usedRemote : Bool
  strategy : String
  fallbackReason : Option String
deriving DecidableEq, Repr

/-- Source `generateFallbackSummary`: split into sentences at `.`/`!`/`?`,
keep those whose trimmed length exceeds 10, join the first three with ". ",
truncate past 300 characters, and fall back to a fixed phrase when empty. -/
def generateFallbackSummary (content : String) : String :=
  let sentences := (content.split (fun c => c = '.' ∨ c = '!' ∨ c = '?')).filter
      (fun s => 10 < s.trim.length)
  let firstSentences := String.intercalate ". " ((sentences.take 3).map (fun s => s.trim))
  if 300 < firstSentences.length then firstSentences.take 297 ++ "..."
  else if firstSentences = "" then
    "Content analysis completed using basic extraction methods."
  else firstSentences

/-- Environment of one `analyzeContent` call: the cache lookup, the policy
decision, the mandatory enrichment pass, and the remote-model call, each
modelled by the outcome it would produce.  `remote` is the summary the parsed
remote response would yield if the call succeeds. -/
structure ProviderEnv where
  cached : Option AIAnalysisResult
  decision : Except String CostDecision
  enrich : Except String Enrichment
  remote : Except String String

/-- The result built on the normal path (no exception inside the `try`):
entities are people ++ organizations ++ locations, topics are primary ++
secondary, and the summary is the remote one or — when the remote step was
skipped or returned an empty string (falsy in JS) — the fallback summary. -/
def mkNormalResult (content : String) (enr : Enrichment) (d : CostDecision)
    (remoteSummary : Option String) : AIAnalysisResult :=
  { summary :=
      match remoteSummary with
      | some s => if s = "" then generateFallbackSummary content else s
      | none => generateFallbackSummary content
    entities := enr.entities.people ++ enr.entities.organizations ++ enr.entities.locations
    topics := enr.topics.primaryTopics ++ enr.topics.secondaryTopics
    language := enr.language
    sentiment := enr.sentiment
    usedRemote := d.useAI
    strategy := d.strategy
    fallbackReason := none }

/-- The result built by the `catch` block: rule-based enrichment only, with
the fallback summary, primary topics only, and `fallbackReason` set. -/
def mkFallbackResult (content : String) (enr : Enrichment) : AIAnalysisResult :=
  { summary := generateFallbackSummary content
    entities := enr.entities.people ++ enr.entities.organizations ++ enr.entities.locations
    topics := enr.topics.primaryTopics
    language := enr.language
    sentiment := enr.sentiment
    usedRemote := false
    strategy := "basic"
    fallbackReason := some "OpenAI API unavailable" }

/-- The body of `analyzeContent`'s `try` block after a cache miss. -/
def tryAnalyze (env : ProviderEnv) (content : String) : Except String AIAnalysisResult :=
  match env.decision with
  | Except.error e => Except.error e
  | Except.ok d =>
      match env.enrich with
      | Except.error e => Except.error e
      | Except.ok enr =>
          if d.useAI = true ∧ d.strategy ≠ "cached" then
            match env.remote with
            | Except.error e => Except.error e
            | Except.ok s => Except.ok (mkNormalResult content enr d (some s))
          else Except.ok (mkNormalResult content enr d none)

/-- Source `OpenAIProvider.analyzeContent`: return the cached result when
present; otherwise run the `try` body, and on any exception run the `catch`
block, which re-runs the rule-based enrichment and promotes it (the provider
fails only when that mandatory pass itself throws). -/
def analyzeContent (env : ProviderEnv) (content : String) : Except String AIAnalysisResult :=
  match env.cached with
  | some r => Except.ok r
  | none =>
      match tryAnalyze env content with
      | Except.ok r => Except.ok r
      | Except.error _ =>
          match env.enrich with
          | Except.error e => Except.error e
          | Except.ok enr => Except.ok (mkFallbackResult content enr)

end OpenAIProvider

namespace SearchLayer

/-- Search document as far as the merge logic observes it. -/
structure SearchDocument where
  id : String
  title : String
  summary : String
deriving DecidableEq, Repr

/-- One backend's contribution inside `Promise.all`: its documents, or `[]`
when its `searchDocuments` call throws (the inner catch). -/
def engineResults (r : Except String (List SearchDocument)) : List SearchDocument :=
  match r with
  | Except.ok docs => docs
  | Except.error _ => []

/-- The merge loop: a JS `Map` keyed by `doc.id`, set only when the key is
absent, enumerated in insertion order — i.e. keep the first occurrence of
each id. -/
def mergeDedup : List SearchDocument → List String → List SearchDocument
  | [], _ => []
  | d :: ds, seen =>
      if d.id ∈ seen then mergeDedup ds seen
      else d :: mergeDedup ds (d.id :: seen)

/-- Source `searchContent` restricted to the `engine = "all"` branch: fan out
to every backend (a throwing backend contributes `[]`), flatten in backend
configuration order, deduplicate by id keeping first occurrences, and slice
to `limit`. -/
def searchContentAll (backends : List (Except String (List SearchDocument)))
    (limit : Nat) : List SearchDocument :=
  (mergeDedup ((backends.map engineResults).flatten) []).take limit

end SearchLayer

namespace AIOrchestrator

/-- How one step of the loop updates the `lastError` accumulator. -/
def accAfter (p : AIProvider ρ) (buffer : List Nat) (mimeType : String)
    (acc : Option String) : Option String :=
  match attemptOf p buffer mimeType with
  | some (Except.error e) => some e
  | _ => acc

end AIOrchestrator

namespace Witness

/-- Concrete provider that reports no MIME type as supported. -/
def pSkip : AIOrchestrator.AIProvider Nat :=
  { isSupported := fun _ => false
    extractText := fun _ _ => Except.ok "ignored"
    analyzeContent := fun _ _ => Except.ok 0 }

/-- Concrete provider that supports everything but throws during analysis. -/
def pBad : AIOrchestrator.AIProvider Nat :=
  { isSupported := fun _ => true
    extractText := fun _ _ => Except.ok "text"
    analyzeContent := fun _ _ => Except.error "boom1" }

/-- Concrete provider that succeeds with result 7. -/
def pGood : AIOrchestrator.AIProvider Nat :=
  { isSupported := fun _ => true
    extractText := fun _ _ => Except.ok "text"
    analyzeContent := fun _ _ => Except.ok 7 }

/-- Concrete pipeline run whose analysis step throws and whose failure
webhook delivery also throws. -/
def envFail : Skimmer.PipelineEnv :=
  { updateStatusAnalyzing := Except.ok ()
    hasCompatibleProvider := true
    mimeType := "text/plain"
    signedUrlProvided := true
    resolveSignedUrl := Except.ok "url"
    downloadFile := Except.ok [1]
    analyzeFile := fun _ => Except.error "analysis blew up"
    sendUnsupportedCallback := Except.ok ()
    sendSuccessCallback := Except.ok ()
    legacySave := Except.ok ()
    sendFailureCallback := Except.error "webhook down" }

/-- Concrete pipeline run for an unsupported MIME type whose unsupported-type
callback delivery throws. -/
def envUnsupported : Skimmer.PipelineEnv :=
  { updateStatusAnalyzing := Except.ok ()
    hasCompatibleProvider := false
    mimeType := "application/x-unknown"
    signedUrlProvided := false
    resolveSignedUrl := Except.ok "url"
    downloadFile := Except.ok [1]
    analyzeFile := fun _ => Except.ok "summary"
    sendUnsupportedCallback := Except.error "callback delivery failed"
    sendSuccessCallback := Except.ok ()
    legacySave := Except.ok ()
    sendFailureCallback := Except.ok () }

/-- Concrete pipeline run for an unsupported MIME type with working callback
delivery. -/
def envUnsupportedOkCb : Skimmer.PipelineEnv :=
  { envUnsupported with sendUnsupportedCallback := Except.ok () }

/-- Concrete rule-based enrichment outcome. -/
def enr0 : OpenAIProvider.Enrichment :=
  { entities := { people := ["alice"], organizations := ["acme"], locations := ["paris"] }
    topics := { primaryTopics := ["finance"], secondaryTopics := ["quarterly"]
                keywords := ["profit"], categories := ["report"] }
    language := "en"
    sentiment := "neutral" }

/-- Concrete provider run whose remote-model call throws. -/
def envRemoteFail : OpenAIProvider.ProviderEnv :=
  { cached := none
    decision := Except.ok { useAI := true, strategy := "full", reasoning := "high priority" }
    enrich := Except.ok enr0
    remote := Except.error "api down" }

/-- Concrete provider run whose cost policy skips the remote model. -/
def envRemoteSkip : OpenAIProvider.ProviderEnv :=
  { cached := none
    decision := Except.ok { useAI := false, strategy := "basic", reasoning := "low budget" }
    enrich := Except.ok enr0
    remote := Except.ok "unused" }

end Witness

open CircuitBreaker AIOrchestrator Skimmer RetryQueue EventBus OpenAIProvider SearchLayer

/-- Helper: a sequence of admitted failing calls from a CLOSED state whose
length exactly fills the failure budget ends in the OPEN state with the
recovery timer set from the last failure time. -/
theorem runFailures_shape (cfg : CircuitBreakerConfig) (ts : List Nat) (tN : Nat) :
    ∀ s : CircuitBreakerState, s.status = CBStatus.closed →
      s.failures + ts.length + 1 = cfg.failureThreshold →
      runFailures cfg s (ts ++ [tN]) =
        { failures := cfg.failureThreshold, lastFailureTime := tN,
          status := CBStatus.opened, nextAttemptTime := tN + cfg.recoveryTimeout } := by
  induction ts with
  | nil =>
      intro s hs hlen
      obtain ⟨f, lf, st, na⟩ := s
      simp only at hs
      subst hs
      simp only [List.length_nil] at hlen
      have hth : cfg.failureThreshold ≤ f + 1 := by omega
      simp only [List.nil_append, runFailures, List.foldl_cons, List.foldl_nil,
        execute, shouldReject, onFailure, hth, if_true, if_pos]
      simp only [Bool.false_eq_true, if_false, CircuitBreakerState.mk.injEq]
      refine ⟨by omega, ?_⟩
      simp
  | cons t ts ih =>
      intro s hs hlen
      obtain ⟨f, lf, st, na⟩ := s
      simp only at hs
      subst hs
      simp only [List.length_cons] at hlen
      have hth : ¬ cfg.failureThreshold ≤ f + 1 := by omega
      have hstep : (execute cfg ⟨f, lf, CBStatus.closed, na⟩ t
          (Except.error () : Except Unit Unit) none).2 = ⟨f + 1, t, CBStatus.closed, na⟩ := by
        simp [execute, shouldReject, onFailure, hth]
      have hcons : runFailures cfg ⟨f, lf, CBStatus.closed, na⟩ ((t :: ts) ++ [tN])
          = runFailures cfg (execute cfg ⟨f, lf, CBStatus.closed, na⟩ t
              (Except.error () : Except Unit Unit) none).2 (ts ++ [tN]) := rfl
      rw [hcons, hstep]
      exact ih _ rfl (by simp only; omega)

/-- C3: for every breaker with failure threshold N (here: any list of N call
times, split as ts ++ [tN]), after N consecutive failures of `execute` the
state is OPEN, and every subsequent `execute` before the recovery timeout has
elapsed (now < tN + recoveryTimeout) returns the provided fallback's result
without invoking the underlying operation, leaving the state unchanged. -/
theorem claim3_breaker_opens_short_circuits (cfg : CircuitBreakerConfig)
    (ts : List Nat) (tN : Nat) (hlen : ts.length + 1 = cfg.failureThreshold) :
    (runFailures cfg initialState (ts ++ [tN])).status = CBStatus.opened ∧
    (runFailures cfg initialState (ts ++ [tN])).failures = cfg.failureThreshold ∧
    (runFailures cfg initialState (ts ++ [tN])).nextAttemptTime = tN + cfg.recoveryTimeout ∧
    (∀ now : Nat, now < tN + cfg.recoveryTimeout →
      ∀ {ε α : Type} (opResult : Except ε α) (fb : α),
        (execute cfg (runFailures cfg initialState (ts ++ [tN])) now opResult (some fb)).1
            = { result := Except.ok fb, invoked := false, usedFallback := true } ∧
        (execute cfg (runFailures cfg initialState (ts ++ [tN])) now opResult (some fb)).2
            = runFailures cfg initialState (ts ++ [tN])) := by
  have h := runFailures_shape cfg ts tN initialState rfl
    (by simp only [initialState]; omega)
  rw [h]
  refine ⟨rfl, rfl, rfl, ?_⟩
  intro now hnow ε α opResult fb
  have hrej : ¬ (tN + cfg.recoveryTimeout ≤ now) := by omega
  exact ⟨by simp [execute, shouldReject, hrej], by simp [execute, shouldReject, hrej]⟩

/-- Witness for C3 at threshold 5, failures at times 1..5, probe at 60004. -/
theorem claim3_witness :
    ([1, 2, 3, 4].length + 1 = defaultConfig.failureThreshold) ∧
    (execute defaultConfig (runFailures defaultConfig initialState ([1, 2, 3, 4] ++ [5]))
        60004 (Except.error "boom" : Except String Nat) (some 7)).1
      = { result := Except.ok 7, invoked := false, usedFallback := true } := by
  refine ⟨by decide, ?_⟩
  exact ((claim3_breaker_opens_short_circuits defaultConfig [1, 2, 3, 4] 5
    (by decide)).2.2.2 60004 (by decide) (Except.error "boom") 7).1

/-- C4 counterexample: with the default config, the very first `execute` call
is admitted (the breaker is CLOSED, `shouldReject` is false); the operation
fails and a fallback is provided, yet the call raises the operation's error
instead of returning the fallback, because the post-failure state (1 failure
out of 5) is not OPEN. -/
theorem claim4_counterexample :
    (shouldReject initialState 0).1 = false ∧
    (execute defaultConfig initialState 0 (Except.error "boom" : Except String Nat)
        (some 42)).1
      = { result := Except.error (CBError.opErr "boom"), invoked := true,
          usedFallback := false } := by
  exact ⟨rfl, rfl⟩

/-- C4 amended: for every admitted `execute` call whose operation raises, the
failure counters are incremented (via `onFailure`, possibly transitioning the
state to OPEN), and the fallback's result is returned instead of the error
exactly when a fallback is available AND the post-failure state is OPEN;
otherwise — in particular for every admitted failure that leaves the breaker
CLOSED or HALF_OPEN — the operation's error propagates even when a fallback
is provided. -/
theorem claim4_fallback_only_when_open {ε α : Type} (cfg : CircuitBreakerConfig)
    (s : CircuitBreakerState) (now : Nat) (e : ε) (fb : Option α)
    (hadm : (shouldReject s now).1 = false) :
    (execute cfg s now (Except.error e) fb).2 = onFailure cfg (shouldReject s now).2 now ∧
    (execute cfg s now (Except.error e) fb).2.failures
        = (shouldReject s now).2.failures + 1 ∧
    (execute cfg s now (Except.error e) fb).1.invoked = true ∧
    (∀ v, fb = some v →
      (onFailure cfg (shouldReject s now).2 now).status = CBStatus.opened →
      (execute cfg s now (Except.error e) fb).1.result = Except.ok v) ∧
    ((onFailure cfg (shouldReject s now).2 now).status ≠ CBStatus.opened →
      (execute cfg s now (Except.error e) fb).1.result
        = Except.error (CBError.opErr e)) ∧
    (fb = none →
      (execute cfg s now (Except.error e) fb).1.result
        = Except.error (CBError.opErr e)) := by
  have hfail : (onFailure cfg (shouldReject s now).2 now).failures
      = (shouldReject s now).2.failures + 1 := by
    simp only [onFailure]
    split <;> rfl
  refine ⟨?_, ?_, ?_, ?_, ?_, ?_⟩
  · cases fb with
    | none => simp [execute, hadm]
    | some v =>
        simp only [execute, hadm, Bool.false_eq_true, if_false]
        split <;> rfl
  · cases fb with
    | none => simp [execute, hadm, hfail]
    | some v =>
        simp only [execute, hadm, Bool.false_eq_true, if_false]
        split <;> simp [hfail]
  · cases fb with
    | none => simp [execute, hadm]
    | some v =>
        simp only [execute, hadm, Bool.false_eq_true, if_false]
        split <;> rfl
  · intro v hv hopen
    subst hv
    simp [execute, hadm, hopen]
  · intro hnopen
    cases fb with
    | none => simp [execute, hadm]
    | some v => simp [execute, hadm, hnopen]
  · intro hnone
    subst hnone
    simp [execute, hadm]

/-- Witness for C4's amended theorem: a failure that trips the threshold
(config with threshold 1) returns the fallback; the same admitted failure
under the default config (threshold 5) propagates the error. -/
theorem claim4_witness :
    ((shouldReject initialState 3).1 = false ∧
      (execute (CircuitBreakerConfig.mk 1 60000 300000) initialState 3
          (Except.error "boom" : Except String Nat) (some 42)).1.result
        = Except.ok 42) ∧
    (execute defaultConfig initialState 3 (Except.error "boom" : Except String Nat)
        (some 42)).1.result = Except.error (CBError.opErr "boom") := by
  refine ⟨⟨rfl, ?_⟩, ?_⟩
  · exact (claim4_fallback_only_when_open (CircuitBreakerConfig.mk 1 60000 300000)
      initialState 3 "boom" (some 42) rfl).2.2.2.1 42 rfl (by decide)
  · exact (claim4_fallback_only_when_open defaultConfig initialState 3 "boom"
      (some 42) rfl).2.2.2.2.1 (by decide)

/-- Helper: one `execute` step preserves the invariant that an OPEN or
HALF_OPEN breaker has at least `failureThreshold` recorded failures. -/
theorem execute_preserves_failure_floor (cfg : CircuitBreakerConfig)
    (s : CircuitBreakerState) (now : Nat) (opRes : Except Unit Unit) (fb : Option Unit)
    (hinv : s.status = CBStatus.opened ∨ s.status = CBStatus.halfOpen →
      cfg.failureThreshold ≤ s.failures) :
    (execute cfg s now opRes fb).2.status = CBStatus.opened ∨
      (execute cfg s now opRes fb).2.status = CBStatus.halfOpen →
    cfg.failureThreshold ≤ (execute cfg s now opRes fb).2.failures := by
  obtain ⟨f, lf, st, na⟩ := s
  cases st with
  | closed =>
      cases opRes with
      | ok v =>
          intro h
          simp [execute, shouldReject, onSuccess] at h
      | error e =>
          by_cases hth : cfg.failureThreshold ≤ f + 1
          · intro _
            cases fb <;> simp [execute, shouldReject, onFailure, hth]
          · intro h
            cases fb <;> simp [execute, shouldReject, onFailure, hth] at h
  | opened =>
      have hf : cfg.failureThreshold ≤ f := hinv (Or.inl rfl)
      by_cases hready : na ≤ now
      · cases opRes with
        | ok v =>
            intro h
            simp [execute, shouldReject, hready, onSuccess] at h
        | error e =>
            have hth : cfg.failureThreshold ≤ f + 1 := by omega
            intro _
            cases fb <;> simp [execute, shouldReject, hready, onFailure, hth]
      · intro _
        cases fb <;> simp [execute, shouldReject, hready] <;> omega
  | halfOpen =>
      have hf : cfg.failureThreshold ≤ f := hinv (Or.inr rfl)
      cases opRes with
      | ok v =>
          intro h
          simp [execute, shouldReject, onSuccess] at h
      | error e =>
          have hth : cfg.failureThreshold ≤ f + 1 := by omega
          intro _
          cases fb <;> simp [execute, shouldReject, onFailure, hth]

/-- Helper: on every state reachable from the constructor state, OPEN or
HALF_OPEN implies the failure count has reached the threshold. -/
theorem reachable_failure_floor (cfg : CircuitBreakerConfig)
    (s : CircuitBreakerState) (h : Reachable cfg s) :
    s.status = CBStatus.opened ∨ s.status = CBStatus.halfOpen →
      cfg.failureThreshold ≤ s.failures := by
  induction h with
  | init =>
      intro hs
      rcases hs with hs | hs <;> simp [initialState] at hs
  | step s now opRes fb hr ih =>
      exact execute_preserves_failure_floor cfg s now opRes fb ih

/-- C5: on every reachable breaker state whose admission check leaves the
breaker in HALF_OPEN (entry from OPEN past the recovery deadline, or already
HALF_OPEN), the trial call is admitted; a success moves the state to CLOSED
with the failure count reset to zero, a failure moves it to OPEN with the
recovery timer restarted from `now`; and the post-call state is never
HALF_OPEN, so under the sequential execution model no second call is ever
admitted while the breaker remains HALF_OPEN. -/
theorem claim5_half_open_single_trial (cfg : CircuitBreakerConfig)
    (s : CircuitBreakerState) (now : Nat) (hreach : Reachable cfg s)
    (htrial : ((shouldReject s now).2).status = CBStatus.halfOpen) :
    (shouldReject s now).1 = false ∧
    (∀ fb : Option Unit,
        (execute cfg s now (Except.ok () : Except Unit Unit) fb).2.status = CBStatus.closed ∧
        (execute cfg s now (Except.ok () : Except Unit Unit) fb).2.failures = 0) ∧
    (∀ fb : Option Unit,
        (execute cfg s now (Except.error () : Except Unit Unit) fb).2.status = CBStatus.opened ∧
        (execute cfg s now (Except.error () : Except Unit Unit) fb).2.nextAttemptTime
          = now + cfg.recoveryTimeout) ∧
    (∀ (opRes : Except Unit Unit) (fb : Option Unit),
        (execute cfg s now opRes fb).2.status ≠ CBStatus.halfOpen) := by
  obtain ⟨f, lf, st, na⟩ := s
  have hfloor : cfg.failureThreshold ≤ f := by
    cases st with
    | closed => simp [shouldReject] at htrial
    | opened => exact reachable_failure_floor cfg _ hreach (Or.inl rfl)
    | halfOpen => exact reachable_failure_floor cfg _ hreach (Or.inr rfl)
  have hth : cfg.failureThreshold ≤ f + 1 := by omega
  have hadm : (shouldReject ⟨f, lf, st, na⟩ now).1 = false := by
    cases st with
    | closed => rfl
    | opened =>
        by_cases hready : na ≤ now
        · simp [shouldReject, hready]
        · simp [shouldReject, hready] at htrial
    | halfOpen => rfl
  refine ⟨hadm, ?_, ?_, ?_⟩
  · intro fb
    cases st with
    | closed => simp [shouldReject] at htrial
    | opened =>
        by_cases hready : na ≤ now
        · cases fb <;> simp [execute, shouldReject, hready, onSuccess]
        · simp [shouldReject, hready] at htrial
    | halfOpen => cases fb <;> simp [execute, shouldReject, onSuccess]
  · intro fb
    cases st with
    | closed => simp [shouldReject] at htrial
    | opened =>
        by_cases hready : na ≤ now
        · cases fb <;> simp [execute, shouldReject, hready, onFailure, hth]
        · simp [shouldReject, hready] at htrial
    | halfOpen => cases fb <;> simp [execute, shouldReject, onFailure, hth]
  · intro opRes fb
    cases st with
    | closed => simp [shouldReject] at htrial
    | opened =>
        by_cases hready : na ≤ now
        · cases opRes with
          | ok v =>
              cases fb <;> simp [execute, shouldReject, hready, onSuccess]
          | error e =>
              cases fb <;> simp [execute, shouldReject, hready, onFailure, hth]
        · simp [shouldReject, hready] at htrial
    | halfOpen =>
        cases opRes with
        | ok v => cases fb <;> simp [execute, shouldReject, onSuccess]
        | error e => cases fb <;> simp [execute, shouldReject, onFailure, hth]

/-- Witness for C5: threshold 1, one failure at time 0 opens the breaker
(recovery 10); the probe at time 10 enters HALF_OPEN, and a successful trial
closes the breaker while a failing trial re-opens it with the timer from 10. -/
theorem claim5_witness :
    (((shouldReject (execute (CircuitBreakerConfig.mk 1 10 0) initialState 0
        (Except.error () : Except Unit Unit) none).2 10).2).status = CBStatus.halfOpen) ∧
    (execute (CircuitBreakerConfig.mk 1 10 0)
        (execute (CircuitBreakerConfig.mk 1 10 0) initialState 0
          (Except.error () : Except Unit Unit) none).2 10 (Except.ok () : Except Unit Unit) none).2.status
      = CBStatus.closed ∧
    (execute (CircuitBreakerConfig.mk 1 10 0)
        (execute (CircuitBreakerConfig.mk 1 10 0) initialState 0
          (Except.error () : Except Unit Unit) none).2 10 (Except.error () : Except Unit Unit) none).2.nextAttemptTime
      = 10 + (CircuitBreakerConfig.mk 1 10 0).recoveryTimeout := by
  have h := claim5_half_open_single_trial (CircuitBreakerConfig.mk 1 10 0)
    (execute (CircuitBreakerConfig.mk 1 10 0) initialState 0 (Except.error () : Except Unit Unit) none).2 10
    (Reachable.step initialState 0 (Except.error () : Except Unit Unit) none Reachable.init)
    (by decide)
  exact ⟨by decide, (h.2.1 none).1, (h.2.2.1 none).2⟩

/-- Helper: a provider is skipped exactly when unsupported. -/
theorem attemptOf_eq_none {ρ : Type} (p : AIProvider ρ) (buffer : List Nat)
    (mimeType : String) :
    attemptOf p buffer mimeType = none ↔ p.isSupported mimeType = false := by
  unfold attemptOf
  by_cases h : p.isSupported mimeType <;> simp [h]

/-- Helper: a failing or skipped provider advances the loop, updating the
`lastError` accumulator via `accAfter`. -/
theorem analyzeFileGo_step_fail {ρ : Type} (buffer : List Nat) (mimeType : String)
    (p : AIProvider ρ) (rest : List (AIProvider ρ)) (acc : Option String)
    (hfail : providerFails p buffer mimeType) :
    analyzeFileGo buffer mimeType (p :: rest) acc
      = analyzeFileGo buffer mimeType rest (accAfter p buffer mimeType acc) := by
  rcases hfail with hnone | ⟨e, he⟩
  · have hsup : p.isSupported mimeType = false :=
      (attemptOf_eq_none p buffer mimeType).1 hnone
    simp only [analyzeFileGo, hsup, Bool.false_eq_true, if_false, accAfter, hnone]
  · have hsup : p.isSupported mimeType = true := by
      cases hb : p.isSupported mimeType
      · rw [attemptOf, hb] at he
        simp at he
      · rfl
    cases hx : p.extractText buffer mimeType with
    | error e1 =>
        have hatt : attemptOf p buffer mimeType = some (Except.error e1) := by
          rw [attemptOf, hsup]
          simp [hx]
        simp only [analyzeFileGo, hsup, if_true, hx, accAfter, hatt]
    | ok text =>
        cases hy : p.analyzeContent text mimeType with
        | error e2 =>
            have hatt : attemptOf p buffer mimeType = some (Except.error e2) := by
              rw [attemptOf, hsup]
              simp [hx, hy]
            simp only [analyzeFileGo, hsup, if_true, hx, hy, accAfter, hatt]
        | ok r =>
            exfalso
            rw [attemptOf, hsup] at he
            simp [hx, hy] at he

/-- Helper: `lastErrorOf` advances the same way on every provider. -/
theorem lastErrorOf_cons {ρ : Type} (buffer : List Nat) (mimeType : String)
    (p : AIProvider ρ) (rest : List (AIProvider ρ)) (acc : Option String) :
    lastErrorOf buffer mimeType (p :: rest) acc
      = lastErrorOf buffer mimeType rest (accAfter p buffer mimeType acc) := by
  cases hatt : attemptOf p buffer mimeType with
  | none => simp only [lastErrorOf, hatt, accAfter]
  | some res =>
      cases res with
      | ok r => simp only [lastErrorOf, hatt, accAfter]
      | error e => simp only [lastErrorOf, hatt, accAfter]

/-- Helper: when every provider fails the loop throws AllProvidersFailed
carrying the accumulated last error. -/
theorem analyzeFileGo_all_fail {ρ : Type} (buffer : List Nat) (mimeType : String)
    (ps : List (AIProvider ρ)) :
    ∀ acc, (∀ p ∈ ps, providerFails p buffer mimeType) →
      analyzeFileGo buffer mimeType ps acc =
        Except.error (OrchestratorError.allProvidersFailed
          (lastErrorOf buffer mimeType ps acc)) := by
  induction ps with
  | nil => intro acc _; rfl
  | cons p rest ih =>
      intro acc hall
      have hp := hall p (List.mem_cons_self p rest)
      have hrest : ∀ q ∈ rest, providerFails q buffer mimeType :=
        fun q hq => hall q (List.mem_cons_of_mem p hq)
      rw [analyzeFileGo_step_fail buffer mimeType p rest acc hp, lastErrorOf_cons]
      exact ih _ hrest

/-- Helper: with every earlier provider failing or skipped, the first
succeeding provider's result is returned. -/
theorem analyzeFileGo_first_success {ρ : Type} (buffer : List Nat) (mimeType : String)
    (pre : List (AIProvider ρ)) (p : AIProvider ρ) (post : List (AIProvider ρ)) (r : ρ) :
    ∀ acc, (∀ q ∈ pre, providerFails q buffer mimeType) →
      attemptOf p buffer mimeType = some (Except.ok r) →
      analyzeFileGo buffer mimeType (pre ++ p :: post) acc = Except.ok r := by
  induction pre with
  | nil =>
      intro acc _ hp
      have hsup : p.isSupported mimeType = true := by
        cases hb : p.isSupported mimeType
        · rw [attemptOf, hb] at hp
          simp at hp
        · rfl
      cases hx : p.extractText buffer mimeType with
      | error e1 =>
          exfalso
          rw [attemptOf, hsup] at hp
          simp [hx] at hp
      | ok text =>
          cases hy : p.analyzeContent text mimeType with
          | error e2 =>
              exfalso
              rw [attemptOf, hsup] at hp
              simp [hx, hy] at hp
          | ok r' =>
              have hr : r' = r := by
                rw [attemptOf, hsup] at hp
                simp [hx, hy] at hp
                exact hp
              subst hr
              simp [analyzeFileGo, hsup, hx, hy]
  | cons q rest ih =>
      intro acc hall hp
      have hq := hall q (List.mem_cons_self q rest)
      have hrest : ∀ x ∈ rest, providerFails x buffer mimeType :=
        fun x hx => hall x (List.mem_cons_of_mem q hx)
      rw [List.cons_append, analyzeFileGo_step_fail buffer mimeType q _ acc hq]
      exact ih _ hrest hp

/-- Helper: the loop ends in an error exactly when every provider fails. -/
theorem analyzeFileGo_error_iff {ρ : Type} (buffer : List Nat) (mimeType : String)
    (ps : List (AIProvider ρ)) :
    ∀ acc, (∃ err, analyzeFileGo buffer mimeType ps acc = Except.error err) ↔
      ∀ p ∈ ps, providerFails p buffer mimeType := by
  induction ps with
  | nil =>
      intro acc
      constructor
      · intro _ p hp
        simp at hp
      · intro _
        exact ⟨OrchestratorError.allProvidersFailed acc, rfl⟩
  | cons p rest ih =>
      intro acc
      constructor
      · rintro ⟨err, herr⟩ q hq
        cases hatt : attemptOf p buffer mimeType with
        | none =>
            have hfail : providerFails p buffer mimeType := Or.inl hatt
            rw [analyzeFileGo_step_fail buffer mimeType p rest acc hfail] at herr
            rcases List.mem_cons.mp hq with hqp | hq'
            · rw [hqp]; exact hfail
            · exact (ih _).mp ⟨err, herr⟩ q hq'
        | some res =>
            cases res with
            | ok r =>
                exfalso
                have hok : analyzeFileGo buffer mimeType ([] ++ p :: rest) acc
                    = Except.ok r :=
                  analyzeFileGo_first_success buffer mimeType [] p rest r acc
                    (by intro x hx; simp at hx) hatt
                rw [List.nil_append] at hok
                rw [hok] at herr
                cases herr
            | error e =>
                have hfail : providerFails p buffer mimeType := Or.inr ⟨e, hatt⟩
                rw [analyzeFileGo_step_fail buffer mimeType p rest acc hfail] at herr
                rcases List.mem_cons.mp hq with hqp | hq'
                · rw [hqp]; exact hfail
                · exact (ih _).mp ⟨err, herr⟩ q hq'
      · intro hall
        exact ⟨OrchestratorError.allProvidersFailed (lastErrorOf buffer mimeType (p :: rest) acc),
          analyzeFileGo_all_fail buffer mimeType (p :: rest) acc hall⟩

/-- C1: `analyzeFile` tries the providers in configuration order, skipping
unsupported ones and continuing past any provider that raises (recording it
as `lastError`): it fails — with `AllProvidersFailed` carrying the last
recorded error — if and only if every provider is incompatible or raises,
and whenever every provider before some provider `p` fails or is skipped and
`p` succeeds (extractText then analyzeContent), the result is `p`'s result
with no user-visible error. -/
theorem claim1_analyzeFile_ordered_fallback {ρ : Type}
    (providers : List (AIProvider ρ)) (buffer : List Nat) (mimeType : String) :
    ((∃ err, analyzeFile providers buffer mimeType = Except.error err) ↔
      ∀ p ∈ providers, providerFails p buffer mimeType) ∧
    ((∀ p ∈ providers, providerFails p buffer mimeType) →
      analyzeFile providers buffer mimeType =
        Except.error (OrchestratorError.allProvidersFailed
          (lastErrorOf buffer mimeType providers none))) ∧
    (∀ pre p post r, providers = pre ++ p :: post →
      (∀ q ∈ pre, providerFails q buffer mimeType) →
      attemptOf p buffer mimeType = some (Except.ok r) →
      analyzeFile providers buffer mimeType = Except.ok r) := by
  refine ⟨analyzeFileGo_error_iff buffer mimeType providers none,
    fun h => analyzeFileGo_all_fail buffer mimeType providers none h, ?_⟩
  intro pre p post r hsplit hpre hp
  rw [show analyzeFile providers buffer mimeType
      = analyzeFileGo buffer mimeType providers none from rfl, hsplit]
  exact analyzeFileGo_first_success buffer mimeType pre p post r none hpre hp

/-- Witness for C1: an unsupported provider followed by a throwing provider
followed by a succeeding one — `analyzeFile` returns the third provider's
result 7 with no error. -/
theorem claim1_witness :
    analyzeFile [Witness.pSkip, Witness.pBad, Witness.pGood] [1, 2, 3] "text/plain"
      = Except.ok 7 := by
  refine (claim1_analyzeFile_ordered_fallback
    [Witness.pSkip, Witness.pBad, Witness.pGood] [1, 2, 3] "text/plain").2.2
    [Witness.pSkip, Witness.pBad] Witness.pGood [] 7 rfl ?_ rfl
  intro q hq
  rcases List.mem_cons.mp hq with hq1 | hq2
  · rw [hq1]
    exact Or.inl rfl
  · rcases List.mem_cons.mp hq2 with hq3 | hq4
    · rw [hq3]
      exact Or.inr ⟨"boom1", rfl⟩
    · simp at hq4

/-- C2: every `processFile` invocation ends in exactly one of two ways — it
returns normally exactly when the pipeline body raised no error, and on any
pipeline error it attempts the failure callback (a failure of that delivery
is logged, and the original error is still the one re-raised), emits the
`analysis_failed` event, and re-raises the original error; a pipeline error
is never swallowed. -/
theorem claim2_processFile_terminal (env : PipelineEnv) :
    ((tryBody env).1 = none → processFile env = (Except.ok (), (tryBody env).2)) ∧
    (∀ e, (tryBody env).1 = some e →
      (processFile env).1 = Except.error e ∧
      Action.failureCallbackTried ∈ (processFile env).2 ∧
      Action.emitFailed ∈ (processFile env).2 ∧
      (∀ we, env.sendFailureCallback = Except.error we →
        Action.failureWebhookErrorLogged we ∈ (processFile env).2)) ∧
    ((processFile env).1 = Except.ok () ↔ (tryBody env).1 = none) := by
  rcases htb : tryBody env with ⟨o, acts⟩
  cases o with
  | none =>
      refine ⟨fun _ => by simp [processFile, htb], ?_, ?_⟩
      · intro e he
        simp at he
      · simp [processFile, htb]
  | some e0 =>
      refine ⟨?_, ?_, ?_⟩
      · intro h
        simp at h
      · intro e he
        simp only at he
        injection he with he1
        subst he1
        cases hcb : env.sendFailureCallback with
        | ok u =>
            refine ⟨by simp [processFile, htb, hcb], by simp [processFile, htb, hcb],
              by simp [processFile, htb, hcb], ?_⟩
            intro we hwe
            simp [hcb] at hwe
        | error we0 =>
            refine ⟨by simp [processFile, htb, hcb], by simp [processFile, htb, hcb],
              by simp [processFile, htb, hcb], ?_⟩
            intro we hwe
            injection hwe with hwe1
            subst hwe1
            simp [processFile, htb, hcb]
      · constructor
        · intro h
          cases hcb : env.sendFailureCallback <;> simp [processFile, htb, hcb] at h
        · intro h
          simp at h

/-- Witness for C2: a run whose analysis throws and whose failure-webhook
delivery also throws still re-raises the original analysis error, records
the callback attempt, the logged webhook error and the failure event. -/
theorem claim2_witness :
    (tryBody Witness.envFail).1 = some "analysis blew up" ∧
    (processFile Witness.envFail).1 = Except.error "analysis blew up" ∧
    Action.failureCallbackTried ∈ (processFile Witness.envFail).2 ∧
    Action.emitFailed ∈ (processFile Witness.envFail).2 ∧
    Action.failureWebhookErrorLogged "webhook down" ∈ (processFile Witness.envFail).2 := by
  have h := (claim2_processFile_terminal Witness.envFail).2.1 "analysis blew up" rfl
  exact ⟨rfl, h.1, h.2.1, h.2.2.1, h.2.2.2 "webhook down" rfl⟩

/-- C6 counterexample: for an event with MIME type `application/x-unknown`
(no compatible provider) whose failure-callback delivery itself throws,
`processFile` raises the delivery error, not an unsupported-content-type
error — though it still never attempts content acquisition. -/
theorem claim6_counterexample :
    Witness.envUnsupported.hasCompatibleProvider = false ∧
    (processFile Witness.envUnsupported).1 = Except.error "callback delivery failed" ∧
    (Except.error "callback delivery failed" : Except String Unit)
      ≠ Except.error (unsupportedMessage "application/x-unknown") ∧
    Action.signedUrlRequested ∉ (processFile Witness.envUnsupported).2 ∧
    Action.downloadRequested ∉ (processFile Witness.envUnsupported).2 := by
  refine ⟨rfl, rfl, by decide, by decide, by decide⟩

/-- C6 amended: for every event whose MIME type no configured provider
supports, `processFile` attempts the failure callback and raises an error —
the unsupported-content-type error when that callback delivery succeeds, and
the delivery error itself when it throws — without ever resolving a signed
URL or downloading content. -/
theorem claim6_unsupported_fail_fast (env : PipelineEnv)
    (h : env.hasCompatibleProvider = false) :
    Action.signedUrlRequested ∉ (processFile env).2 ∧
    Action.downloadRequested ∉ (processFile env).2 ∧
    Action.unsupportedCallbackTried ∈ (processFile env).2 ∧
    (∃ e, (processFile env).1 = Except.error e) ∧
    (∀ u, env.sendUnsupportedCallback = Except.ok u →
      (processFile env).1 = Except.error (unsupportedMessage env.mimeType)) ∧
    (∀ ce, env.sendUnsupportedCallback = Except.error ce →
      (processFile env).1 = Except.error ce) := by
  cases hcb : env.sendUnsupportedCallback with
  | ok u =>
      cases hfb : env.sendFailureCallback with
      | ok w =>
          refine ⟨by simp [processFile, tryBody, h, hcb, hfb],
            by simp [processFile, tryBody, h, hcb, hfb],
            by simp [processFile, tryBody, h, hcb, hfb],
            ⟨unsupportedMessage env.mimeType, by simp [processFile, tryBody, h, hcb, hfb]⟩,
            fun u' _ => by simp [processFile, tryBody, h, hcb, hfb], ?_⟩
          intro ce hce
          simp at hce
      | error w =>
          refine ⟨by simp [processFile, tryBody, h, hcb, hfb],
            by simp [processFile, tryBody, h, hcb, hfb],
            by simp [processFile, tryBody, h, hcb, hfb],
            ⟨unsupportedMessage env.mimeType, by simp [processFile, tryBody, h, hcb, hfb]⟩,
            fun u' _ => by simp [processFile, tryBody, h, hcb, hfb], ?_⟩
          intro ce hce
          simp at hce
  | error ce0 =>
      cases hfb : env.sendFailureCallback with
      | ok w =>
          refine ⟨by simp [processFile, tryBody, h, hcb, hfb],
            by simp [processFile, tryBody, h, hcb, hfb],
            by simp [processFile, tryBody, h, hcb, hfb],
            ⟨ce0, by simp [processFile, tryBody, h, hcb, hfb]⟩, ?_, ?_⟩
          · intro u' hu
            simp at hu
          · intro ce hce
            injection hce with hce1
            subst hce1
            simp [processFile, tryBody, h, hcb, hfb]
      | error w =>
          refine ⟨by simp [processFile, tryBody, h, hcb, hfb],
            by simp [processFile, tryBody, h, hcb, hfb],
            by simp [processFile, tryBody, h, hcb, hfb],
            ⟨ce0, by simp [processFile, tryBody, h, hcb, hfb]⟩, ?_, ?_⟩
          · intro u' hu
            simp at hu
          · intro ce hce
            injection hce with hce1
            subst hce1
            simp [processFile, tryBody, h, hcb, hfb]

/-- Witness for C6's amended theorem: with working callback delivery the
raised error is the unsupported-type message and no acquisition happens. -/
theorem claim6_witness :
    Witness.envUnsupportedOkCb.hasCompatibleProvider = false ∧
    (processFile Witness.envUnsupportedOkCb).1
      = Except.error (unsupportedMessage "application/x-unknown") ∧
    Action.downloadRequested ∉ (processFile Witness.envUnsupportedOkCb).2 := by
  have h := claim6_unsupported_fail_fast Witness.envUnsupportedOkCb rfl
  exact ⟨rfl, h.2.2.2.2.1 () rfl, h.2.1⟩

/-- Helper: the per-operation step never changes the operation's id. -/
theorem processOne_id (now : Nat) (b : Bool) (op op' : RetryableOperation)
    (h : processOne now b op = some op') : op'.id = op.id := by
  by_cases hb : b = true
  · simp [processOne, hb] at h
  · by_cases hm : op.maxRetries ≤ op.currentRetry + 1
    · simp [processOne, hb, hm] at h
    · simp only [processOne, hb, hm, Bool.false_eq_true, if_false,
        Option.some.injEq] at h
      rw [← h]

/-- Helper: when the ready operation's step returns `none` (success or retry
exhaustion), no operation with its id survives the pass. -/
theorem processQueue_removes (q : List RetryableOperation) (now : Nat)
    (succeeds : String → Bool) (op : RetryableOperation)
    (hmem : op ∈ q) (hnodup : (q.map (fun o => o.id)).Nodup)
    (hready : op.nextRetryAt ≤ now)
    (hgone : processOne now (succeeds op.id) op = none) :
    ∀ o ∈ processQueue q now succeeds, o.id ≠ op.id := by
  intro o ho heq
  unfold processQueue at ho
  rw [List.mem_filterMap] at ho
  obtain ⟨a, ha, hfa⟩ := ho
  by_cases hr : a.nextRetryAt ≤ now
  · rw [if_pos hr] at hfa
    have hid : o.id = a.id := processOne_id _ _ _ _ hfa
    have hae : a = op :=
      List.inj_on_of_nodup_map hnodup ha hmem (by rw [← hid, heq])
    subst hae
    rw [hgone] at hfa
    cases hfa
  · rw [if_neg hr] at hfa
    injection hfa with h1
    subst h1
    have hae : a = op := List.inj_on_of_nodup_map hnodup ha hmem heq
    subst hae
    exact hr hready

/-- Helper: after `k < maxRetries` all-failing passes the single registered
operation is still queued, with `currentRetry = k`. -/
theorem singleQueueAfterFails_shape (idv : String) (m : Nat) (t0 : Nat) :
    ∀ k, k < m → ∃ t, singleQueueAfterFails idv m t0 k
      = [{ id := idv, maxRetries := m, currentRetry := k, nextRetryAt := t }] := by
  intro k
  induction k with
  | zero =>
      intro _
      exact ⟨t0, rfl⟩
  | succ k ih =>
      intro hk
      obtain ⟨t, ht⟩ := ih (by omega)
      refine ⟨t + 2 ^ (k + 1) * 1000, ?_⟩
      show processQueue (singleQueueAfterFails idv m t0 k)
          (maxTime (singleQueueAfterFails idv m t0 k)) (fun _ => false) = _
      rw [ht]
      have hm : ¬ m ≤ k + 1 := by omega
      simp [processQueue, maxTime, processOne, hm]

/-- C7: a processing pass removes a ready operation on success; on failure it
increments `currentRetry` and then drops the operation permanently when
`currentRetry >= maxRetries` (an empty queue stays empty, so it is never
retried again) or reschedules it at `now + 2 ^ currentRetry * 1000` ms; and
an operation failing exactly `maxRetries - 1` times stays in the queue
through every failing pass and is removed immediately by a succeeding pass
(while one more failing pass also removes it for good). -/
theorem claim7_retry_queue_lifecycle (q : List RetryableOperation) (now : Nat)
    (succeeds : String → Bool) (op : RetryableOperation) :
    (op ∈ q → (q.map (fun o => o.id)).Nodup → op.nextRetryAt ≤ now →
      succeeds op.id = true →
      ∀ o ∈ processQueue q now succeeds, o.id ≠ op.id) ∧
    (op ∈ q → (q.map (fun o => o.id)).Nodup → op.nextRetryAt ≤ now →
      succeeds op.id = false → op.maxRetries ≤ op.currentRetry + 1 →
      ∀ o ∈ processQueue q now succeeds, o.id ≠ op.id) ∧
    (op ∈ q → op.nextRetryAt ≤ now → succeeds op.id = false →
      op.currentRetry + 1 < op.maxRetries →
      { op with
          currentRetry := op.currentRetry + 1,
          nextRetryAt := now + 2 ^ (op.currentRetry + 1) * 1000 }
          ∈ processQueue q now succeeds) ∧
    (∀ idv m t0 k, k < m →
      ∃ t, singleQueueAfterFails idv m t0 k
        = [{ id := idv, maxRetries := m, currentRetry := k, nextRetryAt := t }]) ∧
    (∀ idv m t0, 1 ≤ m →
      processQueue (singleQueueAfterFails idv m t0 (m - 1))
        (maxTime (singleQueueAfterFails idv m t0 (m - 1))) (fun _ => true) = [] ∧
      processQueue (singleQueueAfterFails idv m t0 (m - 1))
        (maxTime (singleQueueAfterFails idv m t0 (m - 1))) (fun _ => false) = []) ∧
    (∀ now2 succeeds2, processQueue [] now2 succeeds2 = []) := by
  refine ⟨?_, ?_, ?_, ?_, ?_, fun _ _ => rfl⟩
  · intro hmem hnodup hready hs
    exact processQueue_removes q now succeeds op hmem hnodup hready
      (by simp [processOne, hs])
  · intro hmem hnodup hready hs hmax
    exact processQueue_removes q now succeeds op hmem hnodup hready
      (by simp [processOne, hs, hmax])
  · intro hmem hready hs hlt
    have hm : ¬ op.maxRetries ≤ op.currentRetry + 1 := by omega
    exact List.mem_filterMap.mpr ⟨op, hmem, by simp [hready, processOne, hs, hm]⟩
  · exact fun idv m t0 k hk => singleQueueAfterFails_shape idv m t0 k hk
  · intro idv m t0 hm
    obtain ⟨t, ht⟩ := singleQueueAfterFails_shape idv m t0 (m - 1) (by omega)
    have hle : m ≤ m - 1 + 1 := by omega
    constructor
    · rw [ht]
      simp [processQueue, maxTime, processOne]
    · rw [ht]
      simp [processQueue, maxTime, processOne, hle]

/-- Witness for C7 with maxRetries 3: the operation survives two failing
passes with `currentRetry` 2, a third pass removes it whether it succeeds or
fails, and a ready failing operation is rescheduled with the 2-second
backoff after its first failure. -/
theorem claim7_witness :
    (∃ t, singleQueueAfterFails "op1" 3 7 2
      = [{ id := "op1", maxRetries := 3, currentRetry := 2, nextRetryAt := t }]) ∧
    processQueue (singleQueueAfterFails "op1" 3 7 2)
        (maxTime (singleQueueAfterFails "op1" 3 7 2)) (fun _ => true) = [] ∧
    processQueue (singleQueueAfterFails "op1" 3 7 2)
        (maxTime (singleQueueAfterFails "op1" 3 7 2)) (fun _ => false) = [] ∧
    ({ id := "op1", maxRetries := 3, currentRetry := 1, nextRetryAt := 5 + 2 ^ 1 * 1000 }
        : RetryableOperation)
      ∈ processQueue [{ id := "op1", maxRetries := 3, currentRetry := 0, nextRetryAt := 5 }]
          5 (fun _ => false) := by
  have h1 := claim7_retry_queue_lifecycle [] 0 (fun _ => true)
    { id := "op1", maxRetries := 3, currentRetry := 0, nextRetryAt := 0 }
  have h2 := claim7_retry_queue_lifecycle
    [{ id := "op1", maxRetries := 3, currentRetry := 0, nextRetryAt := 5 }] 5
    (fun _ => false)
    { id := "op1", maxRetries := 3, currentRetry := 0, nextRetryAt := 5 }
  exact ⟨h1.2.2.2.1 "op1" 3 7 2 (by omega),
    (h1.2.2.2.2.1 "op1" 3 7 (by omega)).1,
    (h1.2.2.2.2.1 "op1" 3 7 (by omega)).2,
    h2.2.2.1 (by simp) (by decide) rfl (by decide)⟩

/-- Helper: `on` appends to the given event type's handler list, creating
the entry on first use. -/
theorem handlersFor_onRegister {π ε : Type} (hs : HandlerMap π ε) (t : String)
    (h : Handler π ε) :
    handlersFor (onRegister hs t h) t = handlersFor hs t ++ [h] := by
  induction hs with
  | nil => simp [onRegister, handlersFor]
  | cons p rest ih =>
      obtain ⟨t', l⟩ := p
      by_cases ht : t' = t
      · subst ht
        simp [onRegister, handlersFor]
      · have hpa : ¬ (fun p : String × List (Handler π ε) => decide (p.1 = t)) (t', l)
            = true := by simp [ht]
        simp only [onRegister, ht, if_false]
        show handlersFor ((t', l) :: onRegister rest t h) t
          = handlersFor ((t', l) :: rest) t ++ [h]
        unfold handlersFor
        rw [List.find?_cons_of_neg (onRegister rest t h) hpa,
          List.find?_cons_of_neg rest hpa]
        exact ih

/-- C8: `emit` never rejects: it applies every handler registered for the
event type — each receiving the envelope built from the type, payload,
timestamp and generated id — and collects one settled outcome per handler,
so that any single handler's rejection leaves every other handler's outcome
(and `emit`'s own fulfillment) unchanged; and `on` registers handlers in
append order. -/
theorem claim8_emit_settles_all {π ε : Type} (hs : HandlerMap π ε)
    (eventType : String) (payload : π) (now : Nat) (uuid : String) :
    ∃ rs, emit hs eventType payload now uuid = Except.ok rs ∧
      rs.length = (handlersFor hs eventType).length ∧
      (∀ l1 h l2, handlersFor hs eventType = l1 ++ h :: l2 →
        rs = l1.map (settleOf (EventEnvelope.mk eventType payload now uuid)) ++
          settleOf (EventEnvelope.mk eventType payload now uuid) h ::
          l2.map (settleOf (EventEnvelope.mk eventType payload now uuid))) ∧
      (∀ t h2, handlersFor (onRegister hs t h2) t = handlersFor hs t ++ [h2]) := by
  refine ⟨(handlersFor hs eventType).map
      (settleOf (EventEnvelope.mk eventType payload now uuid)), rfl, by simp, ?_,
    fun t h2 => handlersFor_onRegister hs t h2⟩
  intro l1 h l2 hsplit
  rw [hsplit, List.map_append, List.map_cons]

/-- Witness for C8: two handlers registered for "evt" in order, the second
rejecting — `emit` fulfills with one settled outcome per handler. -/
theorem claim8_witness :
    emit (onRegister (onRegister ([] : HandlerMap Nat String) "evt"
        (fun _ => Except.ok ())) "evt" (fun _ => Except.error "handler boom"))
      "evt" 5 100 "id1"
    = Except.ok [Settled.fulfilled, Settled.rejected "handler boom"] := by
  obtain ⟨rs, hok, _, hdec, _⟩ := claim8_emit_settles_all
    (onRegister (onRegister ([] : HandlerMap Nat String) "evt"
      (fun _ => Except.ok ())) "evt" (fun _ => Except.error "handler boom"))
    "evt" 5 100 "id1"
  have hrs := hdec [fun _ => Except.ok ()] (fun _ => Except.error "handler boom") [] rfl
  rw [hok, hrs]
  rfl

/-- C9: the concrete provider's `analyzeContent` raises only when the
mandatory rule-based enrichment pass itself throws (and then with that very
error); whenever the enrichment succeeds the call returns a result, and when
the optional remote-model call fails — or the cost policy skips it — the
rule-based enrichment alone is promoted to the returned result, with the
fallback summary generated from the content. -/
theorem claim9_rule_based_promotion (env : ProviderEnv) (content : String) :
    (∀ e, analyzeContent env content = Except.error e → env.enrich = Except.error e) ∧
    (∀ enr, env.enrich = Except.ok enr →
      ∃ r, analyzeContent env content = Except.ok r) ∧
    (∀ enr d, env.cached = none → env.enrich = Except.ok enr →
      env.decision = Except.ok d →
      (∀ e, env.remote = Except.error e → d.useAI = true → d.strategy ≠ "cached" →
        analyzeContent env content = Except.ok (mkFallbackResult content enr)) ∧
      (d.useAI = false ∨ d.strategy = "cached" →
        analyzeContent env content = Except.ok (mkNormalResult content enr d none)) ∧
      (mkFallbackResult content enr).summary = generateFallbackSummary content ∧
      (mkNormalResult content enr d none).summary = generateFallbackSummary content) := by
  refine ⟨?_, ?_, ?_⟩
  · intro e he
    cases hc : env.cached with
    | some r => simp [analyzeContent, hc] at he
    | none =>
        cases ht : tryAnalyze env content with
        | ok r => simp [analyzeContent, hc, ht] at he
        | error e1 =>
            cases hen : env.enrich with
            | ok enr => simp [analyzeContent, hc, ht, hen] at he
            | error e2 =>
                simp only [analyzeContent, hc, ht, hen] at he
                injection he with he1
                rw [← he1]
  · intro enr hen
    cases hc : env.cached with
    | some r => exact ⟨r, by simp [analyzeContent, hc]⟩
    | none =>
        cases ht : tryAnalyze env content with
        | ok r => exact ⟨r, by simp [analyzeContent, hc, ht]⟩
        | error e1 =>
            exact ⟨mkFallbackResult content enr, by simp [analyzeContent, hc, ht, hen]⟩
  · intro enr d hc hen hd
    refine ⟨?_, ?_, rfl, rfl⟩
    · intro e hrem hai hstr
      have hcond : d.useAI = true ∧ d.strategy ≠ "cached" := ⟨hai, hstr⟩
      have ht : tryAnalyze env content = Except.error e := by
        simp [tryAnalyze, hd, hen, hcond, hrem]
      simp [analyzeContent, hc, ht, hen]
    · intro hskip
      have hcond : ¬ (d.useAI = true ∧ d.strategy ≠ "cached") := by
        rcases hskip with hf | hcached
        · intro hand
          rw [hf] at hand
          cases hand.1
        · intro hand
          exact hand.2 hcached
      have ht : tryAnalyze env content
          = Except.ok (mkNormalResult content enr d none) := by
        simp [tryAnalyze, hd, hen, hcond]
      simp [analyzeContent, hc, ht]

/-- Witness for C9: a failing remote call promotes the rule-based pass with
the fallback summary, and a cost-policy skip promotes it likewise. -/
theorem claim9_witness :
    analyzeContent Witness.envRemoteFail "First sentence is long enough. Second one."
      = Except.ok (mkFallbackResult "First sentence is long enough. Second one."
          Witness.enr0) ∧
    analyzeContent Witness.envRemoteSkip "First sentence is long enough. Second one."
      = Except.ok (mkNormalResult "First sentence is long enough. Second one."
          Witness.enr0 { useAI := false, strategy := "basic", reasoning := "low budget" }
          none) := by
  constructor
  · exact ((claim9_rule_based_promotion Witness.envRemoteFail
      "First sentence is long enough. Second one.").2.2 Witness.enr0
      { useAI := true, strategy := "full", reasoning := "high priority" }
      rfl rfl rfl).1 "api down" rfl rfl (by decide)
  · exact ((claim9_rule_based_promotion Witness.envRemoteSkip
      "First sentence is long enough. Second one.").2.2 Witness.enr0
      { useAI := false, strategy := "basic", reasoning := "low budget" }
      rfl rfl rfl).2.1 (Or.inl rfl)

/-- Helper: every document kept by the merge has an unseen id and is the
first document with its id in the input order. -/
theorem mergeDedup_mem (l : List SearchDocument) :
    ∀ seen d, d ∈ mergeDedup l seen → d.id ∉ seen ∧
      l.find? (fun x => x.id == d.id) = some d := by
  induction l with
  | nil =>
      intro seen d hd
      simp [mergeDedup] at hd
  | cons x xs ih =>
      intro seen d hd
      by_cases hx : x.id ∈ seen
      · rw [mergeDedup, if_pos hx] at hd
        obtain ⟨hn, hf⟩ := ih seen d hd
        have hne2 : ¬ (fun x : SearchDocument => x.id == d.id) x = true := by
          simp only [beq_iff_eq]
          intro hxe
          exact hn (hxe ▸ hx)
        exact ⟨hn, by rw [List.find?_cons_of_neg xs hne2, hf]⟩
      · rw [mergeDedup, if_neg hx] at hd
        rcases List.mem_cons.mp hd with hdx | hd'
        · subst hdx
          refine ⟨hx, ?_⟩
          rw [List.find?_cons_of_pos xs (by simp)]
        · obtain ⟨hn, hf⟩ := ih (x.id :: seen) d hd'
          have hne : d.id ≠ x.id := fun hcon =>
            hn (by rw [hcon]; exact List.mem_cons_self _ _)
          have hne2 : ¬ (fun x : SearchDocument => x.id == d.id) x = true := by
            simp only [beq_iff_eq]
            intro hxe
            exact hne hxe.symm
          exact ⟨fun hcon => hn (List.mem_cons_of_mem _ hcon),
            by rw [List.find?_cons_of_neg xs hne2, hf]⟩
  
/-- Helper: the merged list has pairwise distinct ids. -/
theorem mergeDedup_ids_nodup (l : List SearchDocument) :
    ∀ seen, ((mergeDedup l seen).map (fun d => d.id)).Nodup := by
  induction l with
  | nil =>
      intro seen
      simp [mergeDedup]
  | cons x xs ih =>
      intro seen
      by_cases hx : x.id ∈ seen
      · rw [mergeDedup, if_pos hx]
        exact ih seen
      · rw [mergeDedup, if_neg hx, List.map_cons]
        refine List.nodup_cons.mpr ⟨?_, ih _⟩
        intro hmem
        rw [List.mem_map] at hmem
        obtain ⟨d, hd, hdid⟩ := hmem
        exact (mergeDedup_mem xs (x.id :: seen) d hd).1
          (by rw [hdid]; exact List.mem_cons_self _ _)

/-- C10: the `engine = "all"` search path returns at most `limit` documents;
a throwing backend contributes the empty list (replacing it by a succeeding
empty backend changes nothing); and the merged results contain at most one
document per id — each returned document being the first occurrence of its
id in backend-configuration order. -/
theorem claim10_search_all_merge (backends : List (Except String (List SearchDocument)))
    (limit : Nat) :
    (searchContentAll backends limit).length ≤ limit ∧
    (∀ pre e post, searchContentAll (pre ++ Except.error e :: post) limit
      = searchContentAll (pre ++ Except.ok [] :: post) limit) ∧
    ((searchContentAll backends limit).map (fun d => d.id)).Nodup ∧
    (∀ d, d ∈ searchContentAll backends limit →
      ((backends.map engineResults).flatten).find? (fun x => x.id == d.id) = some d) := by
  refine ⟨List.length_take_le _ _, ?_, ?_, ?_⟩
  · intro pre e post
    simp [searchContentAll, engineResults]
  · have hfull := mergeDedup_ids_nodup ((backends.map engineResults).flatten) []
    have hsub : List.Sublist
        ((searchContentAll backends limit).map (fun d => d.id))
        ((mergeDedup ((backends.map engineResults).flatten) []).map (fun d => d.id)) :=
      (List.take_sublist limit _).map _
    exact hfull.sublist hsub
  · intro d hd
    exact (mergeDedup_mem ((backends.map engineResults).flatten) [] d
      (List.mem_of_mem_take hd)).2

/-- Witness for C10: three backends, the second throwing, with a duplicate
id across the first and third — the first occurrence is kept, the failing
backend behaves as an empty one, and the returned document is the first with
its id. -/
theorem claim10_witness :
    (searchContentAll [Except.ok [SearchDocument.mk "a" "t1" "s1"],
        Except.error "down", Except.ok [SearchDocument.mk "a" "t3" "s3"]] 2
      = searchContentAll [Except.ok [SearchDocument.mk "a" "t1" "s1"],
        Except.ok [], Except.ok [SearchDocument.mk "a" "t3" "s3"]] 2) ∧
    (([Except.ok [SearchDocument.mk "a" "t1" "s1"], Except.error "down",
        Except.ok [SearchDocument.mk "a" "t3" "s3"]].map engineResults).flatten).find?
        (fun x => x.id == "a")
      = some (SearchDocument.mk "a" "t1" "s1") := by
  constructor
  · exact (claim10_search_all_merge [Except.ok [SearchDocument.mk "a" "t1" "s1"],
      Except.error "down", Except.ok [SearchDocument.mk "a" "t3" "s3"]] 2).2.1
      [Except.ok [SearchDocument.mk "a" "t1" "s1"]] "down"
      [Except.ok [SearchDocument.mk "a" "t3" "s3"]]
  · exact (claim10_search_all_merge [Except.ok [SearchDocument.mk "a" "t1" "s1"],
      Except.error "down", Except.ok [SearchDocument.mk "a" "t3" "s3"]] 2).2.2.2
      (SearchDocument.mk "a" "t1" "s1") (by decide)
